import Mathlib

/-!
Verification of the `era` error-decoration library.

The library decorates Go error values with an optional code, message, and
key/value field map, and resolves these along the unwrap chain with
outermost-wins precedence.  We embed the error chain as an inductive type:
`base` is a plain error with no unwrap target (like `errors.New`), `wrap` is
a non-decorated wrapping error that exposes an unwrap target but none of the
private capabilities (like a `fmt.Errorf` wrap with a verb that wraps), and
`era` is the decorated-error node `eraError` with its own code, message and
fields and its wrapped inner error.  Field values (`interface` values in the
source) are a type parameter `V`.  The `fields` component of an `era` node is
`Option (F V)` so that a nil map (never set) is distinguished from a set map.
-/

namespace Era

/-- field map as in the source type `F map[string]interface` : an association
list from string keys to values, keys unique in maps supplied by callers,
first binding wins on lookup. -/
abbrev F (V : Type) := List (String × V)

/-- lookup of a key in a field map, first binding wins (a Go map has unique
keys, so this matches map indexing). -/
def flookup (k : String) : F V → Option V
  | [] => none
  | (k', v) :: rest => if k = k' then some v else flookup k rest

/-- error values: a plain error, a non-decorated wrapping error, or a
decorated `eraError` node. -/
inductive Err (V : Type) where
  | base (msg : String)
  | wrap (msg : String) (inner : Err V)
  | era (code : String) (message : String) (fields : Option (F V)) (inner : Err V)

/-- rendered error string: `eraError.Error` delegates to the inner error
(`return e.err.Error()`); a wrap renders its own formatted text. -/
def errString : Err V → String
  | .base m => m
  | .wrap m _ => m
  | .era _ _ _ inner => errString inner

/-- the `errors.Unwrap` step: `base` has no unwrap target, `wrap` and `era`
expose their inner error. -/
def unwrapErr : Err V → Option (Err V)
  | .base _ => none
  | .wrap _ inner => some inner
  | .era _ _ _ inner => some inner

/-- mutable state assembled by `New` before building the node: code, message
and fields of the `eraError` under construction (inner error handled apart). -/
structure EraState (V : Type) where
  code : String
  message : String
  fields : Option (F V)

/-- options: `codeOption`, `messageOption`, `fieldsOption` and the `Options`
bundle, which is itself an option. -/
inductive EraOption (V : Type) where
  | code (c : String)
  | message (m : String)
  | fields (f : F V)
  | bundle (opts : List (EraOption V))

mutual

/-- the `apply` method of each option: `codeOption.apply` sets `e.code`,
`messageOption.apply` sets `e.message`, `fieldsOption.apply` replaces
`e.fields` wholesale, and `Options.apply` applies its members in order. -/
def applyOpt {V : Type} : EraOption V → EraState V → EraState V
  | .code c, s => { s with code := c }
  | .message m, s => { s with message := m }
  | .fields f, s => { s with fields := some f }
  | .bundle os, s => applyOpts os s

/-- the loop `for _, opt := range opts : opt.apply(err)`. -/
def applyOpts {V : Type} : List (EraOption V) → EraState V → EraState V
  | [], s => s
  | o :: os, s => applyOpts os (applyOpt o s)

end

/-- the constructor `New`: allocate a node wrapping `e` with zero values,
then apply each option in order. -/
def New (e : Err V) (opts : List (EraOption V)) : Err V :=
  let s := applyOpts opts ⟨"", "", none⟩
  .era s.code s.message s.fields e

/-- own code of a node when it exposes the `errorCode` capability (only the
decorated node does). -/
def ownCode : Err V → Option String
  | .era c _ _ _ => some c
  | _ => none

/-- own message of a node when it exposes the `errorMessage` capability. -/
def ownMessage : Err V → Option String
  | .era _ m _ _ => some m
  | _ => none

/-- own fields of a node when it exposes the `errorFields` capability; the
inner option is the stored map, which may itself be nil. -/
def ownFields : Err V → Option (Option (F V))
  | .era _ _ f _ => some f
  | _ => none

/-- own fields of a node as iterated by the `Fields` loop: a non-decorated
node contributes nothing, and iterating a nil map yields no entries. -/
def ownFieldsD : Err V → F V
  | .era _ _ f _ => f.getD []
  | _ => []

/-- loop body of `Code` on a non-nil error: test the `errorCode` capability
with non-empty code, else step to the unwrap target. -/
def codeLoop : Err V → String
  | .base _ => ""
  | .wrap _ inner => codeLoop inner
  | .era c _ _ inner => if c = "" then codeLoop inner else c

/-- the accessor `Code`: the loop runs while `e != nil`. -/
def Code : Option (Err V) → String
  | none => ""
  | some e => codeLoop e

/-- loop body of `Message` on a non-nil error. -/
def messageLoop : Err V → String
  | .base _ => ""
  | .wrap _ inner => messageLoop inner
  | .era _ m _ inner => if m = "" then messageLoop inner else m

/-- the accessor `Message`. -/
def Message : Option (Err V) → String
  | none => ""
  | some e => messageLoop e

/-- one insertion of the `Fields` loop: `if _, ok := fields[k]; ok continue`
then `fields[k] = v`. -/
def addField (acc : F V) (kv : String × V) : F V :=
  if (flookup kv.1 acc).isSome then acc else acc ++ [kv]

/-- inner loop of `Fields`: insert each entry of a node's own map into the
accumulator unless its key is already present. -/
def addFields (acc : F V) (f : F V) : F V := f.foldl addField acc

/-- outer loop of `Fields` on a non-nil error. -/
def fieldsLoop (acc : F V) : Err V → F V
  | .base _ => acc
  | .wrap _ inner => fieldsLoop acc inner
  | .era _ _ f inner => fieldsLoop (addFields acc (f.getD [])) inner

/-- the accessor `Fields`: starts from the empty map `F` and walks the whole
chain. -/
def Fields : Option (Err V) → F V
  | none => []
  | some e => fieldsLoop [] e

/-- the error chain of an error value, outermost first, obtained by repeated
unwrap. -/
def chain : Err V → List (Err V)
  | .base m => [.base m]
  | .wrap m inner => .wrap m inner :: chain inner
  | .era c ms f inner => .era c ms f inner :: chain inner

/-- spec-side resolution of code, following the spec words: walk the chain
outer to inner and return the first own-code value that is non-empty, empty
string when none is found by chain end. -/
def specResolveCodeL : List (Err V) → String
  | [] => ""
  | n :: rest =>
    match ownCode n with
    | some c => if c = "" then specResolveCodeL rest else c
    | none => specResolveCodeL rest

/-- spec-side resolution of message, identical rule applied to the message
field. -/
def specResolveMessageL : List (Err V) → String
  | [] => ""
  | n :: rest =>
    match ownMessage n with
    | some m => if m = "" then specResolveMessageL rest else m
    | none => specResolveMessageL rest

/-- spec-side value of the resolved field map at a key: the value bound by
the outermost chain node whose own fields bind that key. -/
def specFieldsAt (k : String) : List (Err V) → Option V
  | [] => none
  | n :: rest =>
    match flookup k (ownFieldsD n) with
    | some v => some v
    | none => specFieldsAt k rest

/-- test that no node of an error chain contributes any fields. -/
def noOwnFields : Err V → Bool
  | .base _ => true
  | .wrap _ inner => noOwnFields inner
  | .era _ _ f inner => (f.getD []).isEmpty && noOwnFields inner

/-- removal of the non-decorated wrapping nodes of a chain: exactly the nodes
that expose an unwrap target but none of the private capabilities. -/
def stripWraps : Err V → Err V
  | .base m => .base m
  | .wrap _ inner => stripWraps inner
  | .era c m f inner => .era c m f (stripWraps inner)

mutual

/-- test whether an option sets the code field, looking through bundles. -/
def setsCode {V : Type} : EraOption V → Bool
  | .code _ => true
  | .message _ => false
  | .fields _ => false
  | .bundle os => setsCodeL os

/-- test whether some option of a list sets the code field. -/
def setsCodeL {V : Type} : List (EraOption V) → Bool
  | [] => false
  | o :: os => setsCode o || setsCodeL os

end

mutual

/-- test whether an option sets the message field, looking through bundles. -/
def setsMessage {V : Type} : EraOption V → Bool
  | .code _ => false
  | .message _ => true
  | .fields _ => false
  | .bundle os => setsMessageL os

/-- test whether some option of a list sets the message field. -/
def setsMessageL {V : Type} : List (EraOption V) → Bool
  | [] => false
  | o :: os => setsMessage o || setsMessageL os

end

mutual

/-- test whether an option sets the fields map, looking through bundles. -/
def setsFields {V : Type} : EraOption V → Bool
  | .code _ => false
  | .message _ => false
  | .fields _ => true
  | .bundle os => setsFieldsL os

/-- test whether some option of a list sets the fields map. -/
def setsFieldsL {V : Type} : List (EraOption V) → Bool
  | [] => false
  | o :: os => setsFields o || setsFieldsL os

end

/-- lookup distributes over append, preferring the first list. -/
theorem flookup_append {V : Type} (k : String) (a b : F V) :
    flookup k (a ++ b) =
      match flookup k a with
      | some v => some v
      | none => flookup k b := by
  induction a with
  | nil => simp [flookup]
  | cons kv rest ih =>
    by_cases hk : k = kv.1
    · simp [flookup, hk]
    · simp [flookup, hk, ih]

/-- lookup after a single guarded insertion: an existing binding is kept,
otherwise the inserted pair is visible at its key. -/
theorem flookup_addField {V : Type} (k : String) (acc : F V) (kv : String × V) :
    flookup k (addField acc kv) =
      match flookup k acc with
      | some v => some v
      | none => if k = kv.1 then some kv.2 else none := by
  unfold addField
  cases hacc : flookup kv.1 acc with
  | some w =>
    simp only [hacc, Option.isSome_some, if_true]
    cases h : flookup k acc with
    | some v => simp
    | none =>
      have hk : k ≠ kv.1 := by
        intro hkk
        rw [hkk, hacc] at h
        exact Option.noConfusion h
      simp [hk]
  | none =>
    simp only [hacc, Option.isSome_none, Bool.false_eq_true, if_false]
    rw [flookup_append]
    cases h : flookup k acc with
    | some v => simp
    | none => simp [flookup]

/-- lookup after inserting all entries of a node's map: bindings already in
the accumulator win, otherwise the node's own binding is used. -/
theorem flookup_addFields {V : Type} (k : String) (f acc : F V) :
    flookup k (addFields acc f) =
      match flookup k acc with
      | some v => some v
      | none => flookup k f := by
  induction f generalizing acc with
  | nil => cases h : flookup k acc <;> simp [addFields, List.foldl, h, flookup]
  | cons kv rest ih =>
    have step : addFields acc (kv :: rest) = addFields (addField acc kv) rest := rfl
    rw [step, ih, flookup_addField]
    cases h : flookup k acc with
    | some v => simp
    | none =>
      by_cases hk : k = kv.1
      · cases kv with
        | mk k' v => simp_all [flookup]
      · cases kv with
        | mk k' v => simp_all [flookup]

/-- the lookup characterisation of the `Fields` loop: a binding already in
the accumulator wins, otherwise the outermost chain node binding the key
provides the value. -/
theorem flookup_fieldsLoop {V : Type} (k : String) (e : Err V) (acc : F V) :
    flookup k (fieldsLoop acc e) =
      match flookup k acc with
      | some v => some v
      | none => specFieldsAt k (chain e) := by
  induction e generalizing acc with
  | base m => cases h : flookup k acc <;> simp [fieldsLoop, chain, specFieldsAt, ownFieldsD, flookup, h]
  | wrap m inner ih =>
    rw [fieldsLoop, ih]
    cases h : flookup k acc <;> simp [chain, specFieldsAt, ownFieldsD, flookup, h]
  | era c m f inner ih =>
    rw [fieldsLoop, ih, flookup_addFields]
    cases h : flookup k acc with
    | some v => simp [h]
    | none =>
      cases hf : flookup k (f.getD []) <;>
        simp [chain, specFieldsAt, ownFieldsD, h, hf]

/-- a chain none of whose nodes contributes fields leaves the accumulator of
the `Fields` loop unchanged. -/
theorem fieldsLoop_of_noOwnFields {V : Type} (e : Err V) (acc : F V)
    (h : noOwnFields e = true) : fieldsLoop acc e = acc := by
  induction e generalizing acc with
  | base m => rfl
  | wrap m inner ih => exact ih acc (by simpa [noOwnFields] using h)
  | era c m f inner ih =>
    rw [noOwnFields, Bool.and_eq_true] at h
    have hf : f.getD [] = [] := List.isEmpty_iff.mp h.1
    rw [fieldsLoop, hf]
    exact ih acc h.2

/-- appending option lists applies the first list first, then the second. -/
theorem applyOpts_append {V : Type} (a b : List (EraOption V)) (s : EraState V) :
    applyOpts (a ++ b) s = applyOpts b (applyOpts a s) := by
  induction a generalizing s with
  | nil => rfl
  | cons o os ih => simp [applyOpts, ih]

/-- C1: for every non-null inner error `e` and every list of options, the
decorated error returned by `New` renders exactly the same error string as
`e`; decoration never alters the rendered text. -/
theorem C1_render_identity {V : Type} (e : Err V) (opts : List (EraOption V)) :
    errString (New e opts) = errString e := by
  simp [New, errString]

/-- C2: `Code` walks from the outermost error inward via unwrap and returns
the first node's own code that is a non-empty string, empty when none
exists; moreover on a decorated node a non-empty own code is returned at
once, so an outer decorated error's non-empty code overrides any inner one. -/
theorem C2_code_resolution {V : Type} (e i : Err V) (c m : String) (f : Option (F V)) :
    Code (some e) = specResolveCodeL (chain e) ∧
    Code (some (Err.era c m f i)) = (if c = "" then Code (some i) else c) := by
  constructor
  · show codeLoop e = specResolveCodeL (chain e)
    induction e with
    | base msg => rfl
    | wrap msg inner ih => simpa [codeLoop, chain, specResolveCodeL, ownCode] using ih
    | era c' m' f' inner ih =>
      simp only [codeLoop, chain, specResolveCodeL, ownCode]
      split <;> simp_all
  · rfl

/-- C4: `Message` follows the identical rule and precedence as `Code`
applied to the message field: the outermost non-empty own message wins,
empty string when no node carries a non-empty message. -/
theorem C4_message_resolution {V : Type} (e i : Err V) (c m : String) (f : Option (F V)) :
    Message (some e) = specResolveMessageL (chain e) ∧
    Message (some (Err.era c m f i)) = (if m = "" then Message (some i) else m) := by
  constructor
  · show messageLoop e = specResolveMessageL (chain e)
    induction e with
    | base msg => rfl
    | wrap msg inner ih => simpa [messageLoop, chain, specResolveMessageL, ownMessage] using ih
    | era c' m' f' inner ih =>
      simp only [messageLoop, chain, specResolveMessageL, ownMessage]
      split <;> simp_all
  · rfl

/-- C3: `Fields` walks the entire chain outermost to innermost with no early
stop; at every key the resulting mapping holds the value of the outermost
node binding that key, so outer values win on collision and disjoint keys
from different nodes are all preserved; when no node contributes any fields
the result is the empty (non-null) mapping. -/
theorem C3_fields_resolution {V : Type} (e : Err V) :
    (∀ k, flookup k (Fields (some e)) = specFieldsAt k (chain e)) ∧
    (noOwnFields e = true → Fields (some e) = []) := by
  constructor
  · intro k
    show flookup k (fieldsLoop [] e) = specFieldsAt k (chain e)
    rw [flookup_fieldsLoop]
    rfl
  · intro h
    exact fieldsLoop_of_noOwnFields e [] h

/-- C3 witness: on a concrete chain with an inner and an outer decorated
node sharing a key, the resolved mapping keeps the outer value, and on a
chain contributing nothing the mapping is empty. -/
theorem C3_fields_resolution_witness :
    flookup "key"
        (Fields (some (Err.era "" "" (some [("key", 1), ("outer", 2)])
          (Err.wrap "w" (Err.era "" "" (some [("key", 3), ("inner", 4)])
            (Err.base "b"))))))
      = some 1 ∧
    Fields (some (Err.wrap "w" (Err.era "" "" (none : Option (F Nat)) (Err.base "b")))) = [] := by
  constructor
  · rw [(C3_fields_resolution _).1 "key"]
    rfl
  · exact (C3_fields_resolution _).2 rfl

/-- C5: a chain containing non-decorated wrapping nodes interleaved with
decorated nodes resolves identically, for each of `Code`, `Message` and
`Fields`, to the same chain with the non-decorated nodes removed. -/
theorem C5_chain_tolerance {V : Type} (e : Err V) :
    Code (some (stripWraps e)) = Code (some e) ∧
    Message (some (stripWraps e)) = Message (some e) ∧
    Fields (some (stripWraps e)) = Fields (some e) := by
  have hf : ∀ (e : Err V) (acc : F V), fieldsLoop acc (stripWraps e) = fieldsLoop acc e := by
    intro e
    induction e with
    | base m => intro acc; rfl
    | wrap m inner ih => intro acc; simpa [stripWraps, fieldsLoop] using ih acc
    | era c m f inner ih => intro acc; simp [stripWraps, fieldsLoop, ih]
  refine ⟨?_, ?_, hf e []⟩
  · show codeLoop (stripWraps e) = codeLoop e
    induction e with
    | base m => rfl
    | wrap m inner ih => simpa [stripWraps, codeLoop] using ih
    | era c m f inner ih => simp [stripWraps, codeLoop, ih]
  · show messageLoop (stripWraps e) = messageLoop e
    induction e with
    | base m => rfl
    | wrap m inner ih => simpa [stripWraps, messageLoop] using ih
    | era c m f inner ih => simp [stripWraps, messageLoop, ih]

/-- C7: a fields option replaces the node's field map wholesale, so the
second of two fields options fully wins at the node, and in general the last
option governing a given field wins within one construction call. -/
theorem C7_fields_replace {V : Type} (e : Err V) (M1 M2 M : F V)
    (os : List (EraOption V)) (s : EraState V) (c m : String) :
    ownFields (New e [EraOption.fields M1, EraOption.fields M2]) = some (some M2) ∧
    (applyOpts (os ++ [EraOption.fields M]) s).fields = some M ∧
    (applyOpts (os ++ [EraOption.code c]) s).code = c ∧
    (applyOpts (os ++ [EraOption.message m]) s).message = m := by
  refine ⟨rfl, ?_, ?_, ?_⟩ <;> rw [applyOpts_append] <;> rfl

/-- C6: constructing with a bundle passed as a single option yields a
decorated error with exactly the same code, message and fields (indeed the
same node) as passing the bundle members individually in that order. -/
theorem C6_bundle_equivalence {V : Type} (e : Err V) (opts : List (EraOption V)) :
    New e [EraOption.bundle opts] = New e opts := by
  simp [New, applyOpts, applyOpt]

/-- C8: none of the three accessors can fail: on a nil input error, `Code`
and `Message` immediately return the empty string and `Fields` immediately
returns an empty mapping. -/
theorem C8_nil_input {V : Type} :
    Code (none : Option (Err V)) = "" ∧
    Message (none : Option (Err V)) = "" ∧
    Fields (none : Option (Err V)) = [] :=
  ⟨rfl, rfl, rfl⟩

/-- C10: decoration with no options is fully transparent to resolution: for
every error `e`, `Code`, `Message` and `Fields` of `New e []` agree with
those of `e`, because the fresh node has empty code, empty message and a nil
field map. -/
theorem C10_no_options_transparent {V : Type} (e : Err V) :
    Code (some (New e [])) = Code (some e) ∧
    Message (some (New e [])) = Message (some e) ∧
    Fields (some (New e [])) = Fields (some e) := by
  refine ⟨?_, ?_, ?_⟩ <;>
    simp [New, applyOpts, Code, Message, Fields, codeLoop, messageLoop,
      fieldsLoop, addFields]

mutual

/-- an option that does not set the code leaves the code unchanged. -/
theorem applyOpt_code_eq {V : Type} :
    ∀ (o : EraOption V) (s : EraState V), setsCode o = false → (applyOpt o s).code = s.code
  | .code _, _, h => by simp [setsCode] at h
  | .message _, _, _ => rfl
  | .fields _, _, _ => rfl
  | .bundle os, s, h => applyOpts_code_eq os s (by simpa [setsCode] using h)

/-- a list of options none of which sets the code leaves the code unchanged. -/
theorem applyOpts_code_eq {V : Type} :
    ∀ (os : List (EraOption V)) (s : EraState V),
      setsCodeL os = false → (applyOpts os s).code = s.code
  | [], _, _ => rfl
  | o :: os, s, h => by
    rw [setsCodeL, Bool.or_eq_false_iff] at h
    rw [applyOpts, applyOpts_code_eq os _ h.2, applyOpt_code_eq o s h.1]

end

mutual

/-- an option that does not set the message leaves the message unchanged. -/
theorem applyOpt_message_eq {V : Type} :
    ∀ (o : EraOption V) (s : EraState V),
      setsMessage o = false → (applyOpt o s).message = s.message
  | .code _, _, _ => rfl
  | .message _, _, h => by simp [setsMessage] at h
  | .fields _, _, _ => rfl
  | .bundle os, s, h => applyOpts_message_eq os s (by simpa [setsMessage] using h)

/-- a list of options none of which sets the message leaves the message
unchanged. -/
theorem applyOpts_message_eq {V : Type} :
    ∀ (os : List (EraOption V)) (s : EraState V),
      setsMessageL os = false → (applyOpts os s).message = s.message
  | [], _, _ => rfl
  | o :: os, s, h => by
    rw [setsMessageL, Bool.or_eq_false_iff] at h
    rw [applyOpts, applyOpts_message_eq os _ h.2, applyOpt_message_eq o s h.1]

end

mutual

/-- an option that does not set the fields map leaves it unchanged. -/
theorem applyOpt_fields_eq {V : Type} :
    ∀ (o : EraOption V) (s : EraState V),
      setsFields o = false → (applyOpt o s).fields = s.fields
  | .code _, _, _ => rfl
  | .message _, _, _ => rfl
  | .fields _, _, h => by simp [setsFields] at h
  | .bundle os, s, h => applyOpts_fields_eq os s (by simpa [setsFields] using h)

/-- a list of options none of which sets the fields map leaves it unchanged. -/
theorem applyOpts_fields_eq {V : Type} :
    ∀ (os : List (EraOption V)) (s : EraState V),
      setsFieldsL os = false → (applyOpts os s).fields = s.fields
  | [], _, _ => rfl
  | o :: os, s, h => by
    rw [setsFieldsL, Bool.or_eq_false_iff] at h
    rw [applyOpts, applyOpts_fields_eq os _ h.2, applyOpt_fields_eq o s h.1]

end

/-- C9 counterexample: when the inner error itself carries a code, `Code` of
a decorated error built from it with no options returns that inner code, not
the empty string, refuting the claim for arbitrary inner errors. -/
theorem C9_counterexample :
    Code (some (New (Err.era "inner" "" (none : Option (F Nat)) (Err.base "b")) [])) ≠ "" := by
  simp [New, applyOpts, Code, codeLoop]

/-- C9 amended: with no matching option, each accessor applied to the
decorated error returns exactly its value on the inner error; in particular
the empty string, respectively the empty (non-null) mapping, whenever the
inner error itself carries no such metadata, e.g. a plain error. -/
theorem C9_amended {V : Type} (e : Err V) (opts : List (EraOption V)) :
    (setsCodeL opts = false → Code (some (New e opts)) = Code (some e)) ∧
    (setsMessageL opts = false → Message (some (New e opts)) = Message (some e)) ∧
    (setsFieldsL opts = false → Fields (some (New e opts)) = Fields (some e)) := by
  refine ⟨fun h => ?_, fun h => ?_, fun h => ?_⟩
  · have hc : (applyOpts opts (⟨"", "", none⟩ : EraState V)).code = "" :=
      applyOpts_code_eq opts _ h
    simp [New, Code, codeLoop, hc]
  · have hm : (applyOpts opts (⟨"", "", none⟩ : EraState V)).message = "" :=
      applyOpts_message_eq opts _ h
    simp [New, Message, messageLoop, hm]
  · have hf : (applyOpts opts (⟨"", "", none⟩ : EraState V)).fields = none :=
      applyOpts_fields_eq opts _ h
    simp [New, Fields, fieldsLoop, hf, addFields]

/-- C9 witness: on a plain inner error and an option list with no matching
option, the decorated error resolves to empty code, empty message and the
empty mapping. -/
theorem C9_amended_witness :
    Code (some (New (Err.base "b" : Err Nat) [])) = "" ∧
    Message (some (New (Err.base "b" : Err Nat) [])) = "" ∧
    Fields (some (New (Err.base "b" : Err Nat) [])) = [] := by
  refine ⟨?_, ?_, ?_⟩
  · exact (C9_amended (Err.base "b") []).1 rfl
  · exact (C9_amended (Err.base "b") []).2.1 rfl
  · exact (C9_amended (Err.base "b") []).2.2 rfl

end Era
